import Mathlib

/-
Shallow embedding of src/src/slice-sampling.cpp (BTYDplus).

Modelling conventions:
- C doubles are modelled as rationals; the floating-point aspects of the code
  are outside the model.
- The two R random sources are modelled as explicit streams: a stream of
  uniform draws on the unit interval (unif : Nat -> Rat, one value per call to
  runif) and a stream of exponential draws (expo : Nat -> Rat, one value per
  call to rexp).  A counter per stream is threaded through the computation.
  A draw runif(1, a, b) is modelled as a + s * (b - a) with s the next uniform
  stream value.
- The three unbounded while loops of the engine are modelled with explicit
  fuel; a run that does not finish within its fuel yields none.  The C code
  has no error path at all, so none models only non-termination within fuel.
- The domain bounds lower and upper of the engine default to minus and plus
  infinity in the code; they are modelled by the types LowerB (a rational or
  minus infinity) and UpperB (a rational or plus infinity).
- The transcendental library routines used by the posteriors (log, exp, sqrt,
  lgamma, and the pgamma and dgamma calls of Rmath) are opaque external
  functions to this file; they are taken as function parameters.
- Every evaluation of the log-density callback is recorded, together with the
  parameter bundle it received, in a trace carried by the sampler state.
-/

attribute [local semireducible] Rat.add Rat.mul Rat.sub Rat.inv

/-- One recorded log-density evaluation: the position vector passed to the
callback and the parameter bundle passed alongside it. -/
abbrev Call := List ℚ × List ℚ

/-- Lower domain bound of the engine: a finite value or minus infinity
(the default argument -INFINITY of slice_sample_cpp). -/
inductive LowerB where
  | ninf : LowerB
  | fin (q : ℚ) : LowerB
deriving DecidableEq, Repr

/-- Upper domain bound of the engine: a finite value or plus infinity
(the default argument INFINITY of slice_sample_cpp). -/
inductive UpperB where
  | fin (q : ℚ) : UpperB
  | pinf : UpperB
deriving DecidableEq, Repr

/-- The comparison L[j] > lower of the stepping-out loop, with lower possibly
minus infinity. -/
def gtLower (q : ℚ) : LowerB → Prop
  | .ninf => True
  | .fin l => l < q

instance (q : ℚ) (lb : LowerB) : Decidable (gtLower q lb) :=
  match lb with
  | .ninf => isTrue trivial
  | .fin l => inferInstanceAs (Decidable (l < q))

/-- The comparison R[j] < upper of the stepping-out loop, with upper possibly
plus infinity. -/
def ltUpper (q : ℚ) : UpperB → Prop
  | .fin u => q < u
  | .pinf => True

instance (q : ℚ) (ub : UpperB) : Decidable (ltUpper q ub) :=
  match ub with
  | .fin u => inferInstanceAs (Decidable (q < u))
  | .pinf => isTrue trivial

/-- r0 = std::max(L[j], lower), with max over a possibly infinite lower
bound. -/
def clipLo (q : ℚ) : LowerB → ℚ
  | .ninf => q
  | .fin l => max q l

/-- r1 = std::min(R[j], upper), with min over a possibly infinite upper
bound. -/
def clipHi (q : ℚ) : UpperB → ℚ
  | .fin u => min q u
  | .pinf => q

/-- lower ≤ q, reading the possibly infinite lower bound. -/
def lbLe : LowerB → ℚ → Prop
  | .ninf, _ => True
  | .fin l, q => l ≤ q

instance (lb : LowerB) (q : ℚ) : Decidable (lbLe lb q) :=
  match lb with
  | .ninf => isTrue trivial
  | .fin l => inferInstanceAs (Decidable (l ≤ q))

/-- q ≤ upper, reading the possibly infinite upper bound. -/
def ubGe : UpperB → ℚ → Prop
  | .fin u, q => q ≤ u
  | .pinf, _ => True

instance (ub : UpperB) (q : ℚ) : Decidable (ubGe ub q) :=
  match ub with
  | .fin u => inferInstanceAs (Decidable (q ≤ u))
  | .pinf => isTrue trivial

/-- The working state of slice_sample_cpp between coordinate updates: the
working position x, the persistent endpoint vectors L and R (the code clones
them from x0 once, before the loops), the carried log-density logy, the two
random-stream counters, and the trace of log-density evaluations made so
far. -/
structure SState where
  x : List ℚ
  L : List ℚ
  R : List ℚ
  logy : ℚ
  nU : Nat
  nE : Nat
  trace : List Call
deriving DecidableEq, Repr

/-- Equality of shrinkage-loop results is decidable; stated explicitly
because the nested product exceeds the default instance search size. -/
instance : DecidableEq (List ℚ × ℚ × Nat × List Call) :=
  fun a b => instDecidableEqProd a b

/-- The left stepping-out loop of slice_sample_cpp (line 66 of the source):
while L[j] > lower and logfn(L, params) > logz, decrement L[j] by w.  The
short-circuit of the C conjunction is kept: the log-density is evaluated,
and recorded in the trace, only when the bound test passes.  Fuel bounds the
number of loop-condition evaluations; none means the fuel was exhausted. -/
def stepOutLeft (f : List ℚ → List ℚ → ℚ) (params : List ℚ) (lower : LowerB)
    (w logz : ℚ) (j : Nat) : Nat → List ℚ → List Call → Option (List ℚ × List Call)
  | 0, _, _ => none
  | fuel + 1, L, tr =>
    if gtLower (L.getD j 0) lower then
      if f L params > logz then
        stepOutLeft f params lower w logz j fuel
          (L.set j (L.getD j 0 - w)) (tr ++ [(L, params)])
      else
        some (L, tr ++ [(L, params)])
    else
      some (L, tr)

/-- The right stepping-out loop of slice_sample_cpp (line 68 of the source):
while R[j] < upper and logfn(R, params) > logz, increment R[j] by w. -/
def stepOutRight (f : List ℚ → List ℚ → ℚ) (params : List ℚ) (upper : UpperB)
    (w logz : ℚ) (j : Nat) : Nat → List ℚ → List Call → Option (List ℚ × List Call)
  | 0, _, _ => none
  | fuel + 1, R, tr =>
    if ltUpper (R.getD j 0) upper then
      if f R params > logz then
        stepOutRight f params upper w logz j fuel
          (R.set j (R.getD j 0 + w)) (tr ++ [(R, params)])
      else
        some (R, tr ++ [(R, params)])
    else
      some (R, tr)

/-- The shrinkage loop of slice_sample_cpp (lines 75 to 85 of the source):
repeatedly draw xs[j] uniformly from [r0, r1] with all other coordinates of
xs fixed at the working position x, accept when the log-density strictly
exceeds logz, otherwise move r0 or r1 to the rejected draw.  Returns the
accepted vector xs, its log-density, the advanced uniform counter, and the
extended trace. -/
def shrinkLoop (f : List ℚ → List ℚ → ℚ) (params : List ℚ) (j : Nat)
    (x : List ℚ) (logz : ℚ) (unif : Nat → ℚ) :
    Nat → ℚ → ℚ → Nat → List Call → Option (List ℚ × ℚ × Nat × List Call)
  | 0, _, _, _, _ => none
  | fuel + 1, r0, r1, n, tr =>
    let xsj := r0 + unif n * (r1 - r0)
    let xs := x.set j xsj
    let logys := f xs params
    let tr1 := tr ++ [(xs, params)]
    if logys > logz then
      some (xs, logys, n + 1, tr1)
    else if xsj < x.getD j 0 then
      shrinkLoop f params j x logz unif fuel xsj r1 (n + 1) tr1
    else
      shrinkLoop f params j x logz unif fuel r0 xsj (n + 1) tr1

/-- One coordinate update of slice_sample_cpp (the body of the inner loop,
lines 58 to 89 of the source): draw the slice threshold logz, place L[j] and
R[j] around x[j], step out, clip to the domain bounds, run the shrinkage
loop, and carry the accepted draw and its log-density into the next state.
The vectors L and R persist across coordinate updates exactly as in the
source, where they are cloned from x0 once before the loops: only their
coordinate j is written here. -/
def coordUpdate (f : List ℚ → List ℚ → ℚ) (params : List ℚ) (lower : LowerB)
    (upper : UpperB) (w : ℚ) (unif expo : Nat → ℚ) (fuel : Nat) (j : Nat)
    (st : SState) : Option SState :=
  let logz := st.logy - expo st.nE
  let u := unif st.nU * w
  let L1 := st.L.set j (st.x.getD j 0 - u)
  let R1 := st.R.set j (st.x.getD j 0 + (w - u))
  match stepOutLeft f params lower w logz j fuel L1 st.trace with
  | none => none
  | some (L2, tr1) =>
    match stepOutRight f params upper w logz j fuel R1 tr1 with
    | none => none
    | some (R2, tr2) =>
      let r0 := clipLo (L2.getD j 0) lower
      let r1 := clipHi (R2.getD j 0) upper
      match shrinkLoop f params j st.x logz unif fuel r0 r1 (st.nU + 1) tr2 with
      | none => none
      | some (xs, logys, nU2, tr3) =>
        some ⟨xs, L2, R2, logys, nU2, st.nE + 1, tr3⟩

/-- The inner coordinate loop of one sweep: update the listed coordinates in
order. -/
def coordsLoop (f : List ℚ → List ℚ → ℚ) (params : List ℚ) (lower : LowerB)
    (upper : UpperB) (w : ℚ) (unif expo : Nat → ℚ) (fuel : Nat) :
    List Nat → SState → Option SState
  | [], st => some st
  | j :: js, st =>
    match coordUpdate f params lower upper w unif expo fuel j st with
    | none => none
    | some st1 => coordsLoop f params lower upper w unif expo fuel js st1

/-- The outer sweep loop of slice_sample_cpp: perform the given number of
full sweeps, each visiting coordinates 0 to D-1 in order. -/
def stepsLoop (f : List ℚ → List ℚ → ℚ) (params : List ℚ) (lower : LowerB)
    (upper : UpperB) (w : ℚ) (unif expo : Nat → ℚ) (fuel : Nat) (D : Nat) :
    Nat → SState → Option SState
  | 0, st => some st
  | i + 1, st =>
    match coordsLoop f params lower upper w unif expo fuel (List.range D) st with
    | none => none
    | some st1 => stepsLoop f params lower upper w unif expo fuel D i st1

/-- Full run of slice_sample_cpp returning the final state: the initial state
clones x0 into x, L and R, evaluates the log-density once at x0, and then
performs the requested number of sweeps.  nU0 and nE0 are the starting
positions in the two random streams, so that consecutive engine calls of a
batch driver continue the same streams. -/
def slice_sample_run (f : List ℚ → List ℚ → ℚ) (params x0 : List ℚ)
    (steps : Nat) (w : ℚ) (lower : LowerB) (upper : UpperB)
    (unif expo : Nat → ℚ) (nU0 nE0 fuel : Nat) : Option SState :=
  stepsLoop f params lower upper w unif expo fuel x0.length steps
    ⟨x0, x0, x0, f x0 params, nU0, nE0, [(x0, params)]⟩

/-- slice_sample_cpp, lines 40 to 93 of the source: the returned draw is the
working position of the final state. -/
def slice_sample_cpp (f : List ℚ → List ℚ → ℚ) (params x0 : List ℚ)
    (steps : Nat) (w : ℚ) (lower : LowerB) (upper : UpperB)
    (unif expo : Nat → ℚ) (nU0 nE0 fuel : Nat) : Option (List ℚ) :=
  (slice_sample_run f params x0 steps w lower upper unif expo nU0 nE0 fuel).map SState.x

/-- post_lambda_ma_liu, lines 228 to 242 of the source.  logR and expR are
the opaque log and exp routines. -/
def post_lambda_ma_liu (logR expR : ℚ → ℚ) (data params : List ℚ) : ℚ :=
  let lambda1 := data.getD 0 0
  let x := params.getD 0 0
  let tx := params.getD 1 0
  let Tcal := params.getD 2 0
  let mu := params.getD 4 0
  let r := params.getD 5 0
  let alpha := params.getD 6 0
  (r - 1) * logR lambda1 - lambda1 * alpha +
    x * logR lambda1 - logR (lambda1 + mu) +
    logR (mu * expR (-(tx * (lambda1 + mu))) + lambda1 * expR (-(Tcal * (lambda1 + mu))))

/-- post_mu_ma_liu, lines 244 to 258 of the source. -/
def post_mu_ma_liu (logR expR : ℚ → ℚ) (data params : List ℚ) : ℚ :=
  let mu1 := data.getD 0 0
  let x := params.getD 0 0
  let tx := params.getD 1 0
  let Tcal := params.getD 2 0
  let lambda := params.getD 3 0
  let s := params.getD 7 0
  let beta := params.getD 8 0
  (s - 1) * logR mu1 - mu1 * beta +
    x * logR lambda - logR (lambda + mu1) +
    logR (mu1 * expR (-(tx * (lambda + mu1))) + lambda * expR (-(Tcal * (lambda + mu1))))

/-- The loop body of slice_sample_ma_liu over the record indices, threading
the output vector and the random-stream counters.  out(N) of Rcpp is a
zero-initialized vector; a record whose selector matches no branch leaves
its slot at that initial value, exactly as in lines 267 to 274 of the
source. -/
def maLiuLoop (logR expR sqrtR : ℚ → ℚ) (what : String)
    (x tx Tcal lambda mu : List ℚ) (r alpha s beta : ℚ)
    (unif expo : Nat → ℚ) (fuel : Nat) :
    List Nat → List ℚ → Nat → Nat → Option (List ℚ × Nat × Nat)
  | [], out, nU, nE => some (out, nU, nE)
  | i :: is, out, nU, nE =>
    let params := [x.getD i 0, tx.getD i 0, Tcal.getD i 0, lambda.getD i 0,
                   mu.getD i 0, r, alpha, s, beta]
    if what = "lambda" then
      match slice_sample_run (post_lambda_ma_liu logR expR) params
          [lambda.getD i 0] 3 (3 * sqrtR r / alpha) (.fin 0) .pinf
          unif expo nU nE fuel with
      | none => none
      | some st =>
        maLiuLoop logR expR sqrtR what x tx Tcal lambda mu r alpha s beta
          unif expo fuel is (out.set i (st.x.getD 0 0)) st.nU st.nE
    else if what = "mu" then
      match slice_sample_run (post_mu_ma_liu logR expR) params
          [mu.getD i 0] 6 (3 * sqrtR s / beta) (.fin 0) .pinf
          unif expo nU nE fuel with
      | none => none
      | some st =>
        maLiuLoop logR expR sqrtR what x tx Tcal lambda mu r alpha s beta
          unif expo fuel is (out.set i (st.x.getD 0 0)) st.nU st.nE
    else
      maLiuLoop logR expR sqrtR what x tx Tcal lambda mu r alpha s beta
        unif expo fuel is out nU nE

/-- slice_sample_ma_liu, lines 261 to 276 of the source. -/
def slice_sample_ma_liu (logR expR sqrtR : ℚ → ℚ) (what : String)
    (x tx Tcal lambda mu : List ℚ) (r alpha s beta : ℚ)
    (unif expo : Nat → ℚ) (fuel : Nat) : Option (List ℚ) :=
  (maLiuLoop logR expR sqrtR what x tx Tcal lambda mu r alpha s beta unif expo
      fuel (List.range x.length) (List.replicate x.length 0) 0 0).map (fun p => p.1)

/-- pcnbd_post_tau, lines 337 to 357 of the source.  pgP models the Rmath
call Rf_pgamma(q, shape, scale, 0, 0) (upper tail probability), dg models
Rf_dgamma(q, shape, scale, 0), and logR models log. -/
def pcnbd_post_tau (pgP dg : ℚ → ℚ → ℚ → ℚ) (logR : ℚ → ℚ)
    (data params : List ℚ) : ℚ :=
  let tau1 := data.getD 0 0
  let k := params.getD 4 0
  let lambda := params.getD 5 0
  let mu := params.getD 6 0
  let one_minus_F := pgP tau1 k (1 / (k * lambda))
  let f := dg tau1 k (1 / (k * lambda));
  -(mu * tau1) + logR (mu * one_minus_F + f)

/-- pcnbd_post_k, lines 360 to 381 of the source.  pgLog models the Rmath
call Rf_pgamma(q, shape, scale, 0, 1) (log of the upper tail probability),
lgammaR models lgamma. -/
def pcnbd_post_k (pgLog : ℚ → ℚ → ℚ → ℚ) (logR lgammaR : ℚ → ℚ)
    (data params : List ℚ) : ℚ :=
  let k1 := data.getD 0 0
  let x := params.getD 0 0
  let tx := params.getD 1 0
  let Tcal := params.getD 2 0
  let litt := params.getD 3 0
  let lambda := params.getD 5 0
  let tau := params.getD 7 0
  let t := params.getD 8 0
  let gamma := params.getD 9 0
  let log_one_minus_F := pgLog (min Tcal tau - tx) k1 (1 / (k1 * lambda))
  (t - 1) * logR k1 - k1 * gamma +
    k1 * x * logR (k1 * lambda) - x * lgammaR k1 - k1 * lambda * tx +
    (k1 - 1) * litt + log_one_minus_F

/-- pcnbd_post_lambda, lines 383 to 404 of the source. -/
def pcnbd_post_lambda (pgLog : ℚ → ℚ → ℚ → ℚ) (logR : ℚ → ℚ)
    (data params : List ℚ) : ℚ :=
  let lambda1 := data.getD 0 0
  let x := params.getD 0 0
  let tx := params.getD 1 0
  let Tcal := params.getD 2 0
  let k := params.getD 4 0
  let tau := params.getD 7 0
  let r := params.getD 10 0
  let alpha := params.getD 11 0
  let log_one_minus_F := pgLog (min Tcal tau - tx) k (1 / (k * lambda1))
  (r - 1) * logR lambda1 - lambda1 * alpha +
    k * x * logR lambda1 - k * lambda1 * tx + log_one_minus_F

/-- The re-initialization of the tau starting point in the tau branch of
pcnbd_slice_sample, lines 430 to 435 of the source: a current tau outside
[tx, Tcal] is replaced by the midpoint of that interval. -/
def pcnbd_tau_start (tx Tcal tau : ℚ) : ℚ :=
  if tau > Tcal ∨ tau < tx then tx + (Tcal - tx) / 2 else tau

/-- The loop body of pcnbd_slice_sample over the record indices, lines 415
to 439 of the source, threading the output vector and the random-stream
counters.  The tau branch first tests the flatness criterion
Rf_pgamma(tx, k, 1/(k lambda), 0, 1) < -100 and, when it holds, draws
uniformly from (tx, Tcal) without calling the engine. -/
def pcnbdLoop (pgLog pgP dg : ℚ → ℚ → ℚ → ℚ) (logR lgammaR sqrtR : ℚ → ℚ)
    (what : String) (x tx Tcal litt k lambda mu tau : List ℚ)
    (t gamma r alpha s beta : ℚ) (unif expo : Nat → ℚ) (fuel : Nat) :
    List Nat → List ℚ → Nat → Nat → Option (List ℚ × Nat × Nat)
  | [], out, nU, nE => some (out, nU, nE)
  | i :: is, out, nU, nE =>
    let params := [x.getD i 0, tx.getD i 0, Tcal.getD i 0, litt.getD i 0,
                   k.getD i 0, lambda.getD i 0, mu.getD i 0, tau.getD i 0,
                   t, gamma, r, alpha, s, beta]
    if what = "k" then
      match slice_sample_run (pcnbd_post_k pgLog logR lgammaR) params
          [k.getD i 0] 3 (3 * sqrtR t / gamma) (.fin 0) .pinf
          unif expo nU nE fuel with
      | none => none
      | some st =>
        pcnbdLoop pgLog pgP dg logR lgammaR sqrtR what x tx Tcal litt k lambda
          mu tau t gamma r alpha s beta unif expo fuel is
          (out.set i (st.x.getD 0 0)) st.nU st.nE
    else if what = "lambda" then
      match slice_sample_run (pcnbd_post_lambda pgLog logR) params
          [lambda.getD i 0] 3 (3 * sqrtR r / alpha) (.fin 0) .pinf
          unif expo nU nE fuel with
      | none => none
      | some st =>
        pcnbdLoop pgLog pgP dg logR lgammaR sqrtR what x tx Tcal litt k lambda
          mu tau t gamma r alpha s beta unif expo fuel is
          (out.set i (st.x.getD 0 0)) st.nU st.nE
    else if what = "tau" then
      if pgLog (tx.getD i 0) (k.getD i 0) (1 / (k.getD i 0 * lambda.getD i 0)) < -100 then
        pcnbdLoop pgLog pgP dg logR lgammaR sqrtR what x tx Tcal litt k lambda
          mu tau t gamma r alpha s beta unif expo fuel is
          (out.set i (tx.getD i 0 + unif nU * (Tcal.getD i 0 - tx.getD i 0)))
          (nU + 1) nE
      else
        match slice_sample_run (pcnbd_post_tau pgP dg logR) params
            [pcnbd_tau_start (tx.getD i 0) (Tcal.getD i 0) (tau.getD i 0)] 6
            ((Tcal.getD i 0 - tx.getD i 0) / 2)
            (.fin (tx.getD i 0)) (.fin (Tcal.getD i 0))
            unif expo nU nE fuel with
        | none => none
        | some st =>
          pcnbdLoop pgLog pgP dg logR lgammaR sqrtR what x tx Tcal litt k lambda
            mu tau t gamma r alpha s beta unif expo fuel is
            (out.set i (st.x.getD 0 0)) st.nU st.nE
    else
      pcnbdLoop pgLog pgP dg logR lgammaR sqrtR what x tx Tcal litt k lambda
        mu tau t gamma r alpha s beta unif expo fuel is out nU nE

/-- pcnbd_slice_sample, lines 407 to 441 of the source. -/
def pcnbd_slice_sample (pgLog pgP dg : ℚ → ℚ → ℚ → ℚ) (logR lgammaR sqrtR : ℚ → ℚ)
    (what : String) (x tx Tcal litt k lambda mu tau : List ℚ)
    (t gamma r alpha s beta : ℚ) (unif expo : Nat → ℚ) (fuel : Nat) :
    Option (List ℚ) :=
  (pcnbdLoop pgLog pgP dg logR lgammaR sqrtR what x tx Tcal litt k lambda mu tau
      t gamma r alpha s beta unif expo fuel (List.range x.length)
      (List.replicate x.length 0) 0 0).map (fun p => p.1)

/-
Helper lemmas about list update and lookup, and about the engine loops.
-/

theorem list_set_of_length_le (l : List ℚ) (i : Nat) (a : ℚ) (h : l.length ≤ i) :
    l.set i a = l := by
  induction l generalizing i with
  | nil => rfl
  | cons b t ih =>
    cases i with
    | zero => simp at h
    | succ n => simp only [List.set]; rw [ih n (by simpa using h)]

theorem list_getD_set_self (l : List ℚ) (i : Nat) (a : ℚ) (h : i < l.length) :
    (l.set i a).getD i 0 = a := by
  induction l generalizing i with
  | nil => simp at h
  | cons b t ih =>
    cases i with
    | zero => rfl
    | succ n => simpa [List.set, List.getD] using ih n (by simpa using h)

theorem list_getD_set_ne (l : List ℚ) (i k : Nat) (a : ℚ) (h : i ≠ k) :
    (l.set i a).getD k 0 = l.getD k 0 := by
  induction l generalizing i k with
  | nil => rfl
  | cons b t ih =>
    cases i with
    | zero =>
      cases k with
      | zero => exact absurd rfl h
      | succ m => rfl
    | succ n =>
      cases k with
      | zero => rfl
      | succ m => simpa [List.set, List.getD] using ih n m (fun hc => h (by rw [hc]))

theorem set_getD_sub_le (L : List ℚ) (j : Nat) (w : ℚ) (hw : 0 ≤ w) :
    (L.set j (L.getD j 0 - w)).getD j 0 ≤ L.getD j 0 := by
  by_cases hj : j < L.length
  · rw [list_getD_set_self L j _ hj]; linarith
  · rw [list_set_of_length_le L j _ (Nat.le_of_not_lt hj)]

theorem set_getD_add_ge (R : List ℚ) (j : Nat) (w : ℚ) (hw : 0 ≤ w) :
    R.getD j 0 ≤ (R.set j (R.getD j 0 + w)).getD j 0 := by
  by_cases hj : j < R.length
  · rw [list_getD_set_self R j _ hj]; linarith
  · rw [list_set_of_length_le R j _ (Nat.le_of_not_lt hj)]

theorem stepOutLeft_some_le (f : List ℚ → List ℚ → ℚ) (params : List ℚ)
    (lower : LowerB) (w logz : ℚ) (j : Nat) (hw : 0 ≤ w) :
    ∀ fuel (L : List ℚ) (tr : List Call) (L2 : List ℚ) (tr2 : List Call),
    stepOutLeft f params lower w logz j fuel L tr = some (L2, tr2) →
    L2.getD j 0 ≤ L.getD j 0 ∧ L2.length = L.length := by
  intro fuel
  induction fuel with
  | zero => intro L tr L2 tr2 h; simp [stepOutLeft] at h
  | succ fuel ih =>
    intro L tr L2 tr2 h
    simp only [stepOutLeft] at h
    split at h
    · split at h
      · obtain ⟨h1, h2⟩ := ih _ _ _ _ h
        refine ⟨le_trans h1 (set_getD_sub_le L j w hw), ?_⟩
        rw [h2, List.length_set]
      · cases h; exact ⟨le_refl _, rfl⟩
    · cases h; exact ⟨le_refl _, rfl⟩

theorem stepOutRight_some_ge (f : List ℚ → List ℚ → ℚ) (params : List ℚ)
    (upper : UpperB) (w logz : ℚ) (j : Nat) (hw : 0 ≤ w) :
    ∀ fuel (R : List ℚ) (tr : List Call) (R2 : List ℚ) (tr2 : List Call),
    stepOutRight f params upper w logz j fuel R tr = some (R2, tr2) →
    R.getD j 0 ≤ R2.getD j 0 ∧ R2.length = R.length := by
  intro fuel
  induction fuel with
  | zero => intro R tr R2 tr2 h; simp [stepOutRight] at h
  | succ fuel ih =>
    intro R tr R2 tr2 h
    simp only [stepOutRight] at h
    split at h
    · split at h
      · obtain ⟨h1, h2⟩ := ih _ _ _ _ h
        refine ⟨le_trans (set_getD_add_ge R j w hw) h1, ?_⟩
        rw [h2, List.length_set]
      · cases h; exact ⟨le_refl _, rfl⟩
    · cases h; exact ⟨le_refl _, rfl⟩

theorem shrink_accept (f : List ℚ → List ℚ → ℚ) (params : List ℚ) (j : Nat)
    (x : List ℚ) (logz : ℚ) (unif : Nat → ℚ) :
    ∀ fuel (r0 r1 : ℚ) (n : Nat) (tr : List Call) (xs : List ℚ) (ly : ℚ)
      (n2 : Nat) (tr2 : List Call),
    shrinkLoop f params j x logz unif fuel r0 r1 n tr = some (xs, ly, n2, tr2) →
    ly = f xs params ∧ ly > logz := by
  intro fuel
  induction fuel with
  | zero => intro r0 r1 n tr xs ly n2 tr2 h; simp [shrinkLoop] at h
  | succ fuel ih =>
    intro r0 r1 n tr xs ly n2 tr2 h
    simp only [shrinkLoop] at h
    split at h
    · rename_i hacc
      simp only [Option.some.injEq, Prod.mk.injEq] at h
      obtain ⟨h1, h2, h3, h4⟩ := h
      subst h1; subst h2
      exact ⟨rfl, hacc⟩
    · split at h
      · exact ih _ _ _ _ _ _ _ _ h
      · exact ih _ _ _ _ _ _ _ _ h

theorem shrink_mem (f : List ℚ → List ℚ → ℚ) (params : List ℚ) (j : Nat)
    (x : List ℚ) (logz : ℚ) (unif : Nat → ℚ)
    (hu : ∀ m, 0 ≤ unif m ∧ unif m ≤ 1) :
    ∀ fuel (r0 r1 : ℚ) (n : Nat) (tr : List Call) (xs : List ℚ) (ly : ℚ)
      (n2 : Nat) (tr2 : List Call),
    r0 ≤ x.getD j 0 → x.getD j 0 ≤ r1 →
    shrinkLoop f params j x logz unif fuel r0 r1 n tr = some (xs, ly, n2, tr2) →
    ∃ v, xs = x.set j v ∧ r0 ≤ v ∧ v ≤ r1 := by
  intro fuel
  induction fuel with
  | zero => intro r0 r1 n tr xs ly n2 tr2 _ _ h; simp [shrinkLoop] at h
  | succ fuel ih =>
    intro r0 r1 n tr xs ly n2 tr2 hr0 hr1 h
    simp only [shrinkLoop] at h
    have hs0 := (hu n).1
    have hs1 := (hu n).2
    have hd : (0:ℚ) ≤ r1 - r0 := by linarith
    have hlo : r0 ≤ r0 + unif n * (r1 - r0) := by nlinarith
    have hhi : r0 + unif n * (r1 - r0) ≤ r1 := by nlinarith
    split at h
    · simp only [Option.some.injEq, Prod.mk.injEq] at h
      obtain ⟨h1, h2, h3, h4⟩ := h
      exact ⟨r0 + unif n * (r1 - r0), h1.symm, hlo, hhi⟩
    · split at h
      · rename_i hlt
        obtain ⟨v, hv, hv0, hv1⟩ := ih _ _ _ _ _ _ _ _ (le_of_lt hlt) hr1 h
        exact ⟨v, hv, le_trans hlo hv0, hv1⟩
      · rename_i hnlt
        obtain ⟨v, hv, hv0, hv1⟩ := ih _ _ _ _ _ _ _ _ hr0 (le_of_not_lt hnlt) h
        exact ⟨v, hv, hv0, le_trans hv1 hhi⟩

theorem shrink_shape (f : List ℚ → List ℚ → ℚ) (params : List ℚ) (j : Nat)
    (x : List ℚ) (logz : ℚ) (unif : Nat → ℚ) :
    ∀ fuel (r0 r1 : ℚ) (n : Nat) (tr : List Call) (xs : List ℚ) (ly : ℚ)
      (n2 : Nat) (tr2 : List Call),
    shrinkLoop f params j x logz unif fuel r0 r1 n tr = some (xs, ly, n2, tr2) →
    ∃ v, xs = x.set j v := by
  intro fuel
  induction fuel with
  | zero => intro r0 r1 n tr xs ly n2 tr2 h; simp [shrinkLoop] at h
  | succ fuel ih =>
    intro r0 r1 n tr xs ly n2 tr2 h
    simp only [shrinkLoop] at h
    split at h
    · simp only [Option.some.injEq, Prod.mk.injEq] at h
      obtain ⟨h1, h2, h3, h4⟩ := h
      exact ⟨r0 + unif n * (r1 - r0), h1.symm⟩
    · split at h
      · exact ih _ _ _ _ _ _ _ _ h
      · exact ih _ _ _ _ _ _ _ _ h

/-- All recorded log-density calls received exactly the given parameter
bundle. -/
def TraceOK (params : List ℚ) (tr : List Call) : Prop :=
  ∀ c ∈ tr, c.2 = params

theorem traceOK_append_self (params : List ℚ) (tr : List Call) (pos : List ℚ)
    (h : TraceOK params tr) : TraceOK params (tr ++ [(pos, params)]) := by
  intro c hc
  rcases List.mem_append.mp hc with h1 | h1
  · exact h c h1
  · rcases List.mem_singleton.mp h1 with rfl; rfl

theorem stepOutLeft_traceOK (f : List ℚ → List ℚ → ℚ) (params : List ℚ)
    (lower : LowerB) (w logz : ℚ) (j : Nat) :
    ∀ fuel (L : List ℚ) (tr : List Call) (L2 : List ℚ) (tr2 : List Call),
    TraceOK params tr →
    stepOutLeft f params lower w logz j fuel L tr = some (L2, tr2) →
    TraceOK params tr2 := by
  intro fuel
  induction fuel with
  | zero => intro L tr L2 tr2 _ h; simp [stepOutLeft] at h
  | succ fuel ih =>
    intro L tr L2 tr2 htr h
    simp only [stepOutLeft] at h
    split at h
    · split at h
      · exact ih _ _ _ _ (traceOK_append_self params tr L htr) h
      · cases h; exact traceOK_append_self params tr L htr
    · cases h; exact htr

theorem stepOutRight_traceOK (f : List ℚ → List ℚ → ℚ) (params : List ℚ)
    (upper : UpperB) (w logz : ℚ) (j : Nat) :
    ∀ fuel (R : List ℚ) (tr : List Call) (R2 : List ℚ) (tr2 : List Call),
    TraceOK params tr →
    stepOutRight f params upper w logz j fuel R tr = some (R2, tr2) →
    TraceOK params tr2 := by
  intro fuel
  induction fuel with
  | zero => intro R tr R2 tr2 _ h; simp [stepOutRight] at h
  | succ fuel ih =>
    intro R tr R2 tr2 htr h
    simp only [stepOutRight] at h
    split at h
    · split at h
      · exact ih _ _ _ _ (traceOK_append_self params tr R htr) h
      · cases h; exact traceOK_append_self params tr R htr
    · cases h; exact htr

theorem shrink_traceOK (f : List ℚ → List ℚ → ℚ) (params : List ℚ) (j : Nat)
    (x : List ℚ) (logz : ℚ) (unif : Nat → ℚ) :
    ∀ fuel (r0 r1 : ℚ) (n : Nat) (tr : List Call) (xs : List ℚ) (ly : ℚ)
      (n2 : Nat) (tr2 : List Call),
    TraceOK params tr →
    shrinkLoop f params j x logz unif fuel r0 r1 n tr = some (xs, ly, n2, tr2) →
    TraceOK params tr2 := by
  intro fuel
  induction fuel with
  | zero => intro r0 r1 n tr xs ly n2 tr2 _ h; simp [shrinkLoop] at h
  | succ fuel ih =>
    intro r0 r1 n tr xs ly n2 tr2 htr h
    simp only [shrinkLoop] at h
    split at h
    · simp only [Option.some.injEq, Prod.mk.injEq] at h
      obtain ⟨h1, h2, h3, h4⟩ := h
      rw [← h4]
      exact traceOK_append_self params tr _ htr
    · split at h
      · exact ih _ _ _ _ _ _ _ _ (traceOK_append_self params tr _ htr) h
      · exact ih _ _ _ _ _ _ _ _ (traceOK_append_self params tr _ htr) h

theorem coordUpdate_traceOK (f : List ℚ → List ℚ → ℚ) (params : List ℚ)
    (lower : LowerB) (upper : UpperB) (w : ℚ) (unif expo : Nat → ℚ)
    (fuel j : Nat) (st st2 : SState)
    (htr : TraceOK params st.trace)
    (h : coordUpdate f params lower upper w unif expo fuel j st = some st2) :
    TraceOK params st2.trace := by
  simp only [coordUpdate] at h
  split at h
  · cases h
  · rename_i L2 tr1 hL
    split at h
    · cases h
    · rename_i R2 tr2 hR
      split at h
      · cases h
      · rename_i xs ly nU2 tr3 hS
        cases h
        exact shrink_traceOK f params j st.x _ unif _ _ _ _ _ _ _ _ _
          (stepOutRight_traceOK f params upper w _ j _ _ _ _ _
            (stepOutLeft_traceOK f params lower w _ j _ _ _ _ _ htr hL) hR) hS

theorem coordsLoop_traceOK (f : List ℚ → List ℚ → ℚ) (params : List ℚ)
    (lower : LowerB) (upper : UpperB) (w : ℚ) (unif expo : Nat → ℚ)
    (fuel : Nat) :
    ∀ (js : List Nat) (st st2 : SState), TraceOK params st.trace →
    coordsLoop f params lower upper w unif expo fuel js st = some st2 →
    TraceOK params st2.trace := by
  intro js
  induction js with
  | nil => intro st st2 htr h; cases h; exact htr
  | cons j js ih =>
    intro st st2 htr h
    simp only [coordsLoop] at h
    split at h
    · cases h
    · rename_i st1 hc
      exact ih st1 st2 (coordUpdate_traceOK f params lower upper w unif expo
        fuel j st st1 htr hc) h

theorem stepsLoop_traceOK (f : List ℚ → List ℚ → ℚ) (params : List ℚ)
    (lower : LowerB) (upper : UpperB) (w : ℚ) (unif expo : Nat → ℚ)
    (fuel D : Nat) :
    ∀ (steps : Nat) (st st2 : SState), TraceOK params st.trace →
    stepsLoop f params lower upper w unif expo fuel D steps st = some st2 →
    TraceOK params st2.trace := by
  intro steps
  induction steps with
  | zero => intro st st2 htr h; cases h; exact htr
  | succ n ih =>
    intro st st2 htr h
    simp only [stepsLoop] at h
    split at h
    · cases h
    · rename_i st1 hc
      exact ih st1 st2 (coordsLoop_traceOK f params lower upper w unif expo
        fuel _ st st1 htr hc) h

/-- Every real coordinate of the vector lies within the domain bounds. -/
def InBounds (lower : LowerB) (upper : UpperB) (xs : List ℚ) : Prop :=
  ∀ j, j < xs.length → lbLe lower (xs.getD j 0) ∧ ubGe upper (xs.getD j 0)

/-- The state invariant of a run of dimension D: the three working vectors
keep length D and the working position respects the domain bounds. -/
def StInv (lower : LowerB) (upper : UpperB) (D : Nat) (st : SState) : Prop :=
  st.x.length = D ∧ st.L.length = D ∧ st.R.length = D ∧ InBounds lower upper st.x

theorem lbLe_of_le (lower : LowerB) (a b : ℚ) (h : lbLe lower a) (hab : a ≤ b) :
    lbLe lower b := by
  cases lower with
  | ninf => trivial
  | fin l => exact le_trans h hab

theorem ubGe_of_ge (upper : UpperB) (a b : ℚ) (h : ubGe upper a) (hab : b ≤ a) :
    ubGe upper b := by
  cases upper with
  | fin u => exact le_trans hab h
  | pinf => trivial

theorem clipLo_le (q a : ℚ) (lower : LowerB) (hq : q ≤ a) (ha : lbLe lower a) :
    clipLo q lower ≤ a := by
  cases lower with
  | ninf => exact hq
  | fin l => exact max_le hq ha

theorem le_clipHi (q a : ℚ) (upper : UpperB) (hq : a ≤ q) (ha : ubGe upper a) :
    a ≤ clipHi q upper := by
  cases upper with
  | fin u => exact le_min hq ha
  | pinf => exact hq

theorem lbLe_clipLo (q : ℚ) (lower : LowerB) : lbLe lower (clipLo q lower) := by
  cases lower with
  | ninf => trivial
  | fin l => exact le_max_right q l

theorem ubGe_clipHi (q : ℚ) (upper : UpperB) : ubGe upper (clipHi q upper) := by
  cases upper with
  | fin u => exact min_le_right q u
  | pinf => trivial

theorem coordUpdate_inv (f : List ℚ → List ℚ → ℚ) (params : List ℚ)
    (lower : LowerB) (upper : UpperB) (w : ℚ) (unif expo : Nat → ℚ)
    (fuel j D : Nat) (st st2 : SState)
    (hu : ∀ m, 0 ≤ unif m ∧ unif m ≤ 1) (hw : 0 ≤ w) (hj : j < D)
    (hinv : StInv lower upper D st)
    (h : coordUpdate f params lower upper w unif expo fuel j st = some st2) :
    StInv lower upper D st2 := by
  obtain ⟨hxl, hLl, hRl, hbd⟩ := hinv
  have hxj := hbd j (by rw [hxl]; exact hj)
  have hu0 : 0 ≤ unif st.nU * w := mul_nonneg (hu st.nU).1 hw
  have hu1 : unif st.nU * w ≤ w := mul_le_of_le_one_left hw (hu st.nU).2
  simp only [coordUpdate] at h
  split at h
  · cases h
  · rename_i L2 tr1 hL
    split at h
    · cases h
    · rename_i R2 tr2 hR
      split at h
      · cases h
      · rename_i xs ly nU2 tr3 hS
        obtain ⟨hLle, hLlen⟩ := stepOutLeft_some_le f params lower w _ j hw _ _ _ _ _ hL
        obtain ⟨hRge, hRlen⟩ := stepOutRight_some_ge f params upper w _ j hw _ _ _ _ _ hR
        have hL1 : (st.L.set j (st.x.getD j 0 - unif st.nU * w)).getD j 0
            = st.x.getD j 0 - unif st.nU * w :=
          list_getD_set_self st.L j _ (by rw [hLl]; exact hj)
        have hR1 : (st.R.set j (st.x.getD j 0 + (w - unif st.nU * w))).getD j 0
            = st.x.getD j 0 + (w - unif st.nU * w) :=
          list_getD_set_self st.R j _ (by rw [hRl]; exact hj)
        rw [hL1] at hLle
        rw [hR1] at hRge
        have hr0 : clipLo (L2.getD j 0) lower ≤ st.x.getD j 0 :=
          clipLo_le _ _ lower (by linarith) hxj.1
        have hr1 : st.x.getD j 0 ≤ clipHi (R2.getD j 0) upper :=
          le_clipHi _ _ upper (by linarith) hxj.2
        obtain ⟨v, hxs, hv0, hv1⟩ := shrink_mem f params j st.x _ unif hu _ _ _ _ _ _ _ _ _ hr0 hr1 hS
        cases h
        refine ⟨by rw [hxs, List.length_set]; exact hxl, by rw [hLlen, List.length_set]; exact hLl,
          by rw [hRlen, List.length_set]; exact hRl, ?_⟩
        intro m hm
        rw [hxs, List.length_set] at hm
        by_cases hmj : m = j
        · subst hmj
          rw [hxs, list_getD_set_self st.x m v (by rw [hxl] at hm ⊢; exact hm)]
          constructor
          · exact lbLe_of_le lower _ _ (lbLe_clipLo _ lower) hv0
          · exact ubGe_of_ge upper _ _ (ubGe_clipHi _ upper) hv1
        · rw [hxs, list_getD_set_ne st.x j m v (fun hc => hmj hc.symm)]
          exact hbd m hm

theorem coordsLoop_inv (f : List ℚ → List ℚ → ℚ) (params : List ℚ)
    (lower : LowerB) (upper : UpperB) (w : ℚ) (unif expo : Nat → ℚ)
    (fuel D : Nat) (hu : ∀ m, 0 ≤ unif m ∧ unif m ≤ 1) (hw : 0 ≤ w) :
    ∀ (js : List Nat) (st st2 : SState), (∀ j ∈ js, j < D) →
    StInv lower upper D st →
    coordsLoop f params lower upper w unif expo fuel js st = some st2 →
    StInv lower upper D st2 := by
  intro js
  induction js with
  | nil => intro st st2 _ hinv h; cases h; exact hinv
  | cons j js ih =>
    intro st st2 hjs hinv h
    simp only [coordsLoop] at h
    split at h
    · cases h
    · rename_i st1 hc
      exact ih st1 st2 (fun m hm => hjs m (List.mem_cons_of_mem j hm))
        (coordUpdate_inv f params lower upper w unif expo fuel j D st st1 hu hw
          (hjs j (List.mem_cons_self j js)) hinv hc) h

theorem stepsLoop_inv (f : List ℚ → List ℚ → ℚ) (params : List ℚ)
    (lower : LowerB) (upper : UpperB) (w : ℚ) (unif expo : Nat → ℚ)
    (fuel D : Nat) (hu : ∀ m, 0 ≤ unif m ∧ unif m ≤ 1) (hw : 0 ≤ w) :
    ∀ (steps : Nat) (st st2 : SState), StInv lower upper D st →
    stepsLoop f params lower upper w unif expo fuel D steps st = some st2 →
    StInv lower upper D st2 := by
  intro steps
  induction steps with
  | zero => intro st st2 hinv h; cases h; exact hinv
  | succ n ih =>
    intro st st2 hinv h
    simp only [stepsLoop] at h
    split at h
    · cases h
    · rename_i st1 hc
      exact ih st1 st2 (coordsLoop_inv f params lower upper w unif expo fuel D
        hu hw (List.range D) st st1 (fun m hm => List.mem_range.mp hm) hinv hc) h

/-
Concrete instances used by the witnesses below.
-/

/-- Constant zero log-density, as a concrete callback instance. -/
def zeroF : List ℚ → List ℚ → ℚ := fun _ _ => 0

/-- Constant uniform stream with value one half. -/
def halfStream : Nat → ℚ := fun _ => 1 / 2

/-- Constant exponential stream with value one. -/
def oneStream : Nat → ℚ := fun _ => 1

/-- C5: calling slice_sample_cpp with steps = 0 performs no sweep: the
returned vector equals x0 for every log-density, parameter bundle, starting
point, width, bounds, random streams and fuel. -/
theorem c5_zero_steps_id (f : List ℚ → List ℚ → ℚ) (params x0 : List ℚ)
    (w : ℚ) (lower : LowerB) (upper : UpperB) (unif expo : Nat → ℚ)
    (nU0 nE0 fuel : Nat) :
    slice_sample_cpp f params x0 0 w lower upper unif expo nU0 nE0 fuel = some x0 := rfl

/-- C10: the parameter bundle is forwarded verbatim to every log-density
evaluation of a run of slice_sample_cpp: every recorded call of the trace of
a completed run carries exactly the params argument.  (In this pure
embedding the arguments x0 and params are values, so the run cannot mutate
them; the returned vector is built by the run itself.) -/
theorem c10_params_verbatim (f : List ℚ → List ℚ → ℚ) (params x0 : List ℚ)
    (steps : Nat) (w : ℚ) (lower : LowerB) (upper : UpperB)
    (unif expo : Nat → ℚ) (nU0 nE0 fuel : Nat) (st : SState) (c : Call)
    (hrun : slice_sample_run f params x0 steps w lower upper unif expo nU0 nE0 fuel = some st)
    (hc : c ∈ st.trace) : c.2 = params := by
  have h0 : TraceOK params [(x0, params)] := by
    intro d hd
    rcases List.mem_singleton.mp hd with rfl; rfl
  exact stepsLoop_traceOK f params lower upper w unif expo fuel x0.length
    steps _ st h0 hrun c hc

theorem c10_params_verbatim_witness :
    (([1/2], [7]) : Call).2 = [7] :=
  c10_params_verbatim zeroF [7] [1/2] 1 1 (.fin 0) (.fin 1) halfStream oneStream
    0 0 5 ⟨[1/2], [0], [1], 0, 2, 1, [([1/2], [7]), ([1/2], [7])]⟩ ([1/2], [7])
    (by decide) (by decide)

/-- C4: if every coordinate of x0 lies within [lower, upper], then the
working position respects the bounds at every coordinate update (the state
invariant is preserved), and every coordinate of the vector returned by
slice_sample_cpp lies within [lower, upper]. -/
theorem c4_bound_respect (f : List ℚ → List ℚ → ℚ) (params x0 : List ℚ)
    (steps : Nat) (w : ℚ) (lower : LowerB) (upper : UpperB)
    (unif expo : Nat → ℚ) (nU0 nE0 fuel : Nat) (xfin : List ℚ)
    (D j : Nat) (st st2 : SState)
    (hu : ∀ m, 0 ≤ unif m ∧ unif m ≤ 1) (hw : 0 ≤ w)
    (hx0 : InBounds lower upper x0)
    (hj : j < D) (hst : StInv lower upper D st)
    (hco : coordUpdate f params lower upper w unif expo fuel j st = some st2)
    (hrun : slice_sample_cpp f params x0 steps w lower upper unif expo nU0 nE0 fuel = some xfin) :
    StInv lower upper D st2 ∧ InBounds lower upper xfin := by
  refine ⟨coordUpdate_inv f params lower upper w unif expo fuel j D st st2 hu hw hj hst hco, ?_⟩
  simp only [slice_sample_cpp, Option.map_eq_some'] at hrun
  obtain ⟨stF, hF, hFx⟩ := hrun
  have hinv0 : StInv lower upper x0.length
      ⟨x0, x0, x0, f x0 params, nU0, nE0, [(x0, params)]⟩ := ⟨rfl, rfl, rfl, hx0⟩
  have := stepsLoop_inv f params lower upper w unif expo fuel x0.length hu hw
    steps _ stF hinv0 hF
  rw [← hFx]
  exact this.2.2.2

/-- The unit stream hypothesis for the constant one-half stream. -/
theorem halfStream_unit : ∀ m, 0 ≤ halfStream m ∧ halfStream m ≤ 1 :=
  fun _ => ⟨by norm_num [halfStream], by norm_num [halfStream]⟩

/-- The singleton vector one half lies within the bounds zero and one. -/
theorem inBounds01_half : InBounds (.fin 0) (.fin 1) [1/2] := by
  intro j hj
  simp only [List.length_cons, List.length_nil] at hj
  rw [Nat.lt_one_iff] at hj
  subst hj
  exact ⟨by decide, by decide⟩

/-- Initial state of the one-dimensional witness run. -/
def wSt0 : SState := ⟨[1/2], [1/2], [1/2], 0, 0, 0, [([1/2], [7])]⟩

/-- Final state of the one-dimensional witness run. -/
def wSt1 : SState := ⟨[1/2], [0], [1], 0, 2, 1, [([1/2], [7]), ([1/2], [7])]⟩

theorem c4_bound_respect_witness :
    StInv (.fin 0) (.fin 1) 1 wSt1 ∧ InBounds (.fin 0) (.fin 1) [1/2] :=
  c4_bound_respect zeroF [7] [1/2] 1 1 (.fin 0) (.fin 1) halfStream oneStream
    0 0 5 [1/2] 1 0 wSt0 wSt1 halfStream_unit (by decide) inBounds01_half
    (by decide) ⟨rfl, rfl, rfl, inBounds01_half⟩ (by decide) (by decide)

/-- C2: after the stepping-out phase and clipping, the current coordinate
value lies between r0 and r1 before shrinkage begins, and a rejected
shrinkage draw moves one endpoint to the draw while keeping the current
coordinate inside the updated interval. -/
theorem c2_containment (f : List ℚ → List ℚ → ℚ) (params : List ℚ)
    (lower : LowerB) (upper : UpperB) (w : ℚ) (unif expo : Nat → ℚ)
    (fuel j : Nat) (st : SState) (L2 R2 : List ℚ) (tr1 tr2 : List Call)
    (r0 r1 : ℚ) (n fuelN : Nat) (trN : List Call)
    (hw : 0 ≤ w) (hu : ∀ m, 0 ≤ unif m ∧ unif m ≤ 1)
    (hj : j < st.x.length) (hLlen : st.L.length = st.x.length)
    (hRlen : st.R.length = st.x.length)
    (hlo : lbLe lower (st.x.getD j 0)) (hhi : ubGe upper (st.x.getD j 0))
    (hL : stepOutLeft f params lower w (st.logy - expo st.nE) j fuel
      (st.L.set j (st.x.getD j 0 - unif st.nU * w)) st.trace = some (L2, tr1))
    (hR : stepOutRight f params upper w (st.logy - expo st.nE) j fuel
      (st.R.set j (st.x.getD j 0 + (w - unif st.nU * w))) tr1 = some (R2, tr2))
    (hr0 : r0 ≤ st.x.getD j 0) (hr1 : st.x.getD j 0 ≤ r1)
    (hrej : ¬ f (st.x.set j (r0 + unif n * (r1 - r0))) params > st.logy - expo st.nE) :
    (clipLo (L2.getD j 0) lower ≤ st.x.getD j 0 ∧
      st.x.getD j 0 ≤ clipHi (R2.getD j 0) upper)
    ∧ ∃ r0a r1a,
        shrinkLoop f params j st.x (st.logy - expo st.nE) unif (fuelN + 1) r0 r1 n trN
          = shrinkLoop f params j st.x (st.logy - expo st.nE) unif fuelN r0a r1a (n + 1)
              (trN ++ [(st.x.set j (r0 + unif n * (r1 - r0)), params)])
        ∧ r0a ≤ st.x.getD j 0 ∧ st.x.getD j 0 ≤ r1a := by
  have hu0 : 0 ≤ unif st.nU * w := mul_nonneg (hu st.nU).1 hw
  obtain ⟨hLle, _⟩ := stepOutLeft_some_le f params lower w _ j hw _ _ _ _ _ hL
  obtain ⟨hRge, _⟩ := stepOutRight_some_ge f params upper w _ j hw _ _ _ _ _ hR
  rw [list_getD_set_self st.L j _ (by rw [hLlen]; exact hj)] at hLle
  rw [list_getD_set_self st.R j _ (by rw [hRlen]; exact hj)] at hRge
  have hu1 : unif st.nU * w ≤ w := mul_le_of_le_one_left hw (hu st.nU).2
  refine ⟨⟨clipLo_le _ _ lower (by linarith) hlo, le_clipHi _ _ upper (by linarith) hhi⟩, ?_⟩
  by_cases hlt : r0 + unif n * (r1 - r0) < st.x.getD j 0
  · refine ⟨r0 + unif n * (r1 - r0), r1, ?_, le_of_lt hlt, hr1⟩
    simp only [shrinkLoop]
    rw [if_neg hrej, if_pos hlt]
  · refine ⟨r0, r0 + unif n * (r1 - r0), ?_, hr0, le_of_not_lt hlt⟩
    simp only [shrinkLoop]
    rw [if_neg hrej, if_neg hlt]

/-- Constant minus five log-density, a concrete callback whose value always
lies below the slice threshold of the witness run. -/
def negFiveF : List ℚ → List ℚ → ℚ := fun _ _ => -5

/-- State of the C2 witness run before the coordinate update. -/
def c2st : SState := ⟨[1/2], [1/2], [1/2], 0, 0, 0, []⟩

theorem c2_containment_witness :
    ((clipLo (([0] : List ℚ).getD 0 0) (.fin 0) ≤ c2st.x.getD 0 0 ∧
      c2st.x.getD 0 0 ≤ clipHi (([1] : List ℚ).getD 0 0) (.fin 1))
    ∧ ∃ r0a r1a,
        shrinkLoop negFiveF [] 0 c2st.x (c2st.logy - oneStream c2st.nE)
            halfStream (3 + 1) (1/4) (3/4) 0 []
          = shrinkLoop negFiveF [] 0 c2st.x (c2st.logy - oneStream c2st.nE)
              halfStream 3 r0a r1a (0 + 1)
              ([] ++ [(c2st.x.set 0 (1/4 + halfStream 0 * (3/4 - 1/4)), [])])
        ∧ r0a ≤ c2st.x.getD 0 0 ∧ c2st.x.getD 0 0 ≤ r1a) :=
  c2_containment negFiveF [] (.fin 0) (.fin 1) 1 halfStream oneStream 5 0
    c2st [0] [1] [] [] (1/4) (3/4) 0 3 []
    (by decide) halfStream_unit (by decide) (by decide) (by decide)
    (by decide) (by decide) (by decide) (by decide)
    (by decide) (by decide) (by decide)

/-- C3: a rejected shrinkage draw strictly reduces the interval length (the
interval never grows), the shrinkage loop returns only draws whose
log-density strictly exceeds the slice threshold, and a completed coordinate
update carries the accepted draw as the new position and its log-density as
the new carried value. -/
theorem c3_shrink_progress (f : List ℚ → List ℚ → ℚ) (params : List ℚ)
    (lower : LowerB) (upper : UpperB) (w : ℚ) (unif expo : Nat → ℚ)
    (fuel j : Nat) (st st2 : SState) (x : List ℚ) (logz r0 r1 : ℚ)
    (n fuelN : Nat) (trN : List Call)
    (fuelA : Nat) (r0A r1A : ℚ) (nA : Nat) (trA : List Call)
    (xsA : List ℚ) (lyA : ℚ) (n2 : Nat) (tr2 : List Call)
    (hs0 : 0 < unif n) (hs1 : unif n < 1) (hlt : r0 < r1)
    (hrej : ¬ f (x.set j (r0 + unif n * (r1 - r0))) params > logz)
    (hsome : shrinkLoop f params j x logz unif fuelA r0A r1A nA trA
      = some (xsA, lyA, n2, tr2))
    (hco : coordUpdate f params lower upper w unif expo fuel j st = some st2) :
    (∃ r0a r1a,
      shrinkLoop f params j x logz unif (fuelN + 1) r0 r1 n trN
        = shrinkLoop f params j x logz unif fuelN r0a r1a (n + 1)
            (trN ++ [(x.set j (r0 + unif n * (r1 - r0)), params)])
      ∧ r1a - r0a < r1 - r0)
    ∧ (lyA = f xsA params ∧ lyA > logz)
    ∧ (st2.logy = f st2.x params ∧ st2.logy > st.logy - expo st.nE) := by
  refine ⟨?_, shrink_accept f params j x logz unif fuelA r0A r1A nA trA xsA lyA n2 tr2 hsome, ?_⟩
  · by_cases hl : r0 + unif n * (r1 - r0) < x.getD j 0
    · refine ⟨r0 + unif n * (r1 - r0), r1, ?_, ?_⟩
      · simp only [shrinkLoop]
        rw [if_neg hrej, if_pos hl]
      · have hp : 0 < unif n * (r1 - r0) := mul_pos hs0 (by linarith)
        linarith
    · refine ⟨r0, r0 + unif n * (r1 - r0), ?_, ?_⟩
      · simp only [shrinkLoop]
        rw [if_neg hrej, if_neg hl]
      · have hp : unif n * (r1 - r0) < r1 - r0 := by nlinarith
        linarith
  · simp only [coordUpdate] at hco
    split at hco
    · cases hco
    · rename_i L2 tr1x hL
      split at hco
      · cases hco
      · rename_i R2 tr2x hR
        split at hco
        · cases hco
        · rename_i xs ly nU2 tr3 hS
          obtain ⟨hly, hgt⟩ := shrink_accept f params j st.x _ unif _ _ _ _ _ _ _ _ _ hS
          cases hco
          exact ⟨hly, hgt⟩

/-- Log-density for the C3 witness: minus five on the vector whose first
entry is seven eighths, zero elsewhere. -/
def c3f : List ℚ → List ℚ → ℚ :=
  fun pos _ => if pos.getD 0 0 = 7/8 then -5 else 0

/-- Final state of the C3 witness coordinate update. -/
def c3st2 : SState := ⟨[1/2], [0], [1], 0, 2, 1, [([1/2], [])]⟩

theorem c3_shrink_progress_witness :
    (∃ r0a r1a,
      shrinkLoop c3f [] 0 [1/2] (-1) halfStream (3 + 1) (3/4) 1 0 []
        = shrinkLoop c3f [] 0 [1/2] (-1) halfStream 3 r0a r1a (0 + 1)
            ([] ++ [(([1/2] : List ℚ).set 0 (3/4 + halfStream 0 * (1 - 3/4)), [])])
      ∧ r1a - r0a < 1 - 3/4)
    ∧ ((0 : ℚ) = c3f [1/2] [] ∧ (0 : ℚ) > -1)
    ∧ (c3st2.logy = c3f c3st2.x [] ∧ c3st2.logy > c2st.logy - oneStream c2st.nE) :=
  c3_shrink_progress c3f [] (.fin 0) (.fin 1) 1 halfStream oneStream 5 0
    c2st c3st2 [1/2] (-1) (3/4) 1 0 3 [] 5 0 1 0 [] [1/2] 0 1 [([1/2], [])]
    (by decide) (by decide) (by decide) (by decide) (by decide) (by decide)

/-- The trace of an optional state, empty when the computation did not
finish. -/
def traceOf (o : Option SState) : List Call :=
  o.elim [] SState.trace

/-- Initial state of the two-dimensional run exhibiting the stale endpoint
evaluations: x0 = [5, 5], so x, L and R all start as [5, 5] and the trace
holds the initial evaluation. -/
def c1st0 : SState := ⟨[5, 5], [5, 5], [5, 5], 0, 0, 0, [([5, 5], [])]⟩

/-- C1 fails on the code for D = 2: in the concrete run below (constant zero
log-density, width 1, bounds 0 and 10, uniform stream one half, exponential
stream one), the update of coordinate 0 leaves the working position at
[5, 5], yet the subsequent update of coordinate 1 evaluates the log-density
at [-1/2, 9/2], a vector that is not the working position with coordinate 1
replaced: its coordinate 0 holds the stale stepped-out left endpoint -1/2
instead of the accepted value 5. -/
theorem c1_stale_endpoint_evaluation :
    (coordUpdate zeroF [] (.fin 0) (.fin 10) 1 halfStream oneStream 20 0 c1st0).map SState.x
      = some [5, 5]
    ∧ ([-(1/2), 9/2], ([] : List ℚ)) ∈
        traceOf ((coordUpdate zeroF [] (.fin 0) (.fin 10) 1 halfStream oneStream 20 0 c1st0).bind
          (coordUpdate zeroF [] (.fin 0) (.fin 10) 1 halfStream oneStream 20 1))
    ∧ ∀ c : ℚ, ([5, 5] : List ℚ).set 1 c ≠ [-(1/2), 9/2] := by
  refine ⟨by decide, by decide, ?_⟩
  intro c hc
  have h5 : (5 : ℚ) = -(1/2) := by
    have h0 := congrArg (fun l => l.getD 0 0) hc
    simpa using h0
  norm_num at h5

/-- C6 fails on the code as stated: with lower = upper = 1 and x0 = [1] the
sampler does not fail fast with a domain error; it completes normally and
returns the degenerate draw. -/
theorem c6_counterexample_no_domain_error :
    slice_sample_cpp zeroF [] [1] 1 1 (.fin 1) (.fin 1) halfStream oneStream 0 0 5
      = some [1] := by decide

/-- C6 amended: slice_sample_cpp has no fail-fast guard.  With lower = upper
= b and x0 = [b], one full sweep completes normally for any log-density and
returns the degenerate draw [b]: the clipped interval collapses to the
single point b, whose redrawn log-density equals the carried one and always
exceeds the threshold.  No error of any kind is raised. -/
theorem c6_degenerate_bounds_no_error (f : List ℚ → List ℚ → ℚ) (params : List ℚ)
    (b w : ℚ) (unif expo : Nat → ℚ) (fuel : Nat)
    (hu0 : 0 ≤ unif 0) (hu1 : unif 0 ≤ 1) (hw : 0 ≤ w) (he : 0 < expo 0) :
    slice_sample_cpp f params [b] 1 w (.fin b) (.fin b) unif expo 0 0 (fuel + 1)
      = some [b] := by
  have huw : unif 0 * w ≤ w := mul_le_of_le_one_left hw hu1
  have hu0w : 0 ≤ unif 0 * w := mul_nonneg hu0 hw
  have hune : ¬ gtLower (b - unif 0 * w) (LowerB.fin b) := by
    simp only [gtLower]
    intro hcon
    linarith
  have hune2 : ¬ ltUpper (b + (w - unif 0 * w)) (UpperB.fin b) := by
    simp only [ltUpper]
    intro hcon
    linarith
  have e1 : stepOutLeft f params (.fin b) w (f [b] params - expo 0) 0 (fuel + 1)
      [b - unif 0 * w] [([b], params)] = some ([b - unif 0 * w], [([b], params)]) := by
    simp only [stepOutLeft, List.getD_cons_zero]
    rw [if_neg hune]
  have e2 : stepOutRight f params (.fin b) w (f [b] params - expo 0) 0 (fuel + 1)
      [b + (w - unif 0 * w)] [([b], params)] = some ([b + (w - unif 0 * w)], [([b], params)]) := by
    simp only [stepOutRight, List.getD_cons_zero]
    rw [if_neg hune2]
  have hc0 : clipLo (b - unif 0 * w) (.fin b) = b := by
    simp only [clipLo]
    exact max_eq_right (by linarith)
  have hc1 : clipHi (b + (w - unif 0 * w)) (.fin b) = b := by
    simp only [clipHi]
    exact min_eq_right (by linarith)
  have e3 : shrinkLoop f params 0 [b] (f [b] params - expo 0) unif (fuel + 1) b b (0 + 1)
      [([b], params)]
      = some ([b], f [b] params, 0 + 1 + 1, [([b], params)] ++ [([b], params)]) := by
    simp only [shrinkLoop, sub_self, mul_zero, add_zero, List.set_cons_zero]
    rw [if_pos (by linarith)]
  show slice_sample_cpp f params [b] (0 + 1) w (.fin b) (.fin b) unif expo 0 0 (fuel + 1)
    = some [b]
  simp only [slice_sample_cpp, slice_sample_run, stepsLoop, coordsLoop, coordUpdate,
    List.length_cons, List.length_nil, List.range_succ, List.range_zero, List.nil_append,
    List.getD_cons_zero, List.set_cons_zero, e1, e2, hc0, hc1, e3, Option.map_some']

theorem c6_degenerate_bounds_no_error_witness :
    slice_sample_cpp zeroF [] [3] 1 2 (.fin 3) (.fin 3) halfStream oneStream 0 0 7
      = some [3] :=
  c6_degenerate_bounds_no_error zeroF [] 3 2 halfStream oneStream 6
    (by norm_num [halfStream]) (by norm_num [halfStream]) (by norm_num)
    (by norm_num [oneStream])

/-- Constant zero stand-in for the opaque pgamma and dgamma routines. -/
def pgZero : ℚ → ℚ → ℚ → ℚ := fun _ _ _ => 0

/-- Constant one stand-in for the opaque dgamma routine. -/
def dgOne : ℚ → ℚ → ℚ → ℚ := fun _ _ _ => 1

/-- Constant zero stand-in for the opaque log, lgamma and sqrt routines. -/
def logZero : ℚ → ℚ := fun _ => 0

/-- Constant minus two hundred stand-in for the log upper tail of pgamma,
which triggers the flatness criterion. -/
def pgNeg : ℚ → ℚ → ℚ → ℚ := fun _ _ _ => -200

/-- C7 fails on the code as stated: a pcnbd_slice_sample call with selector
tau and current tau = 100 outside [tx, Tcal] = [8, 14] raises no error; the
call completes normally and returns a draw. -/
theorem c7_counterexample_no_error :
    pcnbd_slice_sample pgZero pgZero dgOne logZero logZero logZero "tau"
      [0] [8] [14] [0] [1] [1] [0] [100] 0 0 0 0 0 0 halfStream oneStream 20
      = some [11] := by decide

/-- C7 amended: on a tau selector with the current tau outside [tx, Tcal]
and the flatness criterion not triggered, pcnbd_slice_sample raises no
error: it silently substitutes the midpoint tx + (Tcal - tx) / 2 as the
starting point of the slice-sampling engine and proceeds normally. -/
theorem c7_silent_midpoint_substitution (pgLog pgP dg : ℚ → ℚ → ℚ → ℚ)
    (logR lgammaR sqrtR : ℚ → ℚ)
    (x0v tx0 Tcal0 litt0 k0 la0 mu0 tau0 t gamma r alpha s beta : ℚ)
    (unif expo : Nat → ℚ) (fuel : Nat)
    (hout : tau0 > Tcal0 ∨ tau0 < tx0)
    (hflat : ¬ pgLog tx0 k0 (1 / (k0 * la0)) < -100) :
    pcnbd_slice_sample pgLog pgP dg logR lgammaR sqrtR "tau"
      [x0v] [tx0] [Tcal0] [litt0] [k0] [la0] [mu0] [tau0]
      t gamma r alpha s beta unif expo fuel
    = (slice_sample_run (pcnbd_post_tau pgP dg logR)
        [x0v, tx0, Tcal0, litt0, k0, la0, mu0, tau0, t, gamma, r, alpha, s, beta]
        [tx0 + (Tcal0 - tx0) / 2] 6 ((Tcal0 - tx0) / 2) (.fin tx0) (.fin Tcal0)
        unif expo 0 0 fuel).map (fun st => [st.x.getD 0 0]) := by
  have hmid : pcnbd_tau_start tx0 Tcal0 tau0 = tx0 + (Tcal0 - tx0) / 2 := by
    simp only [pcnbd_tau_start]
    rw [if_pos hout]
  simp only [pcnbd_slice_sample, List.length_cons, List.length_nil, List.range_succ,
    List.range_zero, List.nil_append, List.replicate, pcnbdLoop, List.getD_cons_zero,
    hmid]
  simp only [if_true]
  rw [if_neg hflat]
  cases hv : slice_sample_run (pcnbd_post_tau pgP dg logR)
      [x0v, tx0, Tcal0, litt0, k0, la0, mu0, tau0, t, gamma, r, alpha, s, beta]
      [tx0 + (Tcal0 - tx0) / 2] 6 ((Tcal0 - tx0) / 2) (.fin tx0) (.fin Tcal0)
      unif expo 0 0 fuel with
  | none => simp
  | some st => simp [pcnbdLoop, List.set_cons_zero]

theorem c7_silent_midpoint_substitution_witness :
    pcnbd_slice_sample pgZero pgZero dgOne logZero logZero logZero "tau"
      [0] [8] [14] [0] [1] [1] [0] [100] 0 0 0 0 0 0 halfStream oneStream 25
    = (slice_sample_run (pcnbd_post_tau pgZero dgOne logZero)
        [0, 8, 14, 0, 1, 1, 0, 100, 0, 0, 0, 0, 0, 0]
        [8 + (14 - 8) / 2] 6 ((14 - 8) / 2) (.fin 8) (.fin 14)
        halfStream oneStream 0 0 25).map (fun st => [st.x.getD 0 0]) :=
  c7_silent_midpoint_substitution pgZero pgZero dgOne logZero logZero logZero
    0 8 14 0 1 1 0 100 0 0 0 0 0 0 halfStream oneStream 25
    (Or.inl (by norm_num)) (by norm_num [pgZero])

/-- C9: when the flatness criterion is triggered for a tau draw, the output
for that record is drawn uniformly over (tx, Tcal) by the next uniform
stream value, and the slice-sampling engine is never invoked: the result
does not depend on the engine, the posterior, or the fuel. -/
theorem c9_flatness_uniform_fallback (pgLog pgP dg : ℚ → ℚ → ℚ → ℚ)
    (logR lgammaR sqrtR : ℚ → ℚ)
    (x0v tx0 Tcal0 litt0 k0 la0 mu0 tau0 t gamma r alpha s beta : ℚ)
    (unif expo : Nat → ℚ) (fuel : Nat)
    (hflat : pgLog tx0 k0 (1 / (k0 * la0)) < -100) :
    pcnbd_slice_sample pgLog pgP dg logR lgammaR sqrtR "tau"
      [x0v] [tx0] [Tcal0] [litt0] [k0] [la0] [mu0] [tau0]
      t gamma r alpha s beta unif expo fuel
    = some [tx0 + unif 0 * (Tcal0 - tx0)] := by
  simp only [pcnbd_slice_sample, List.length_cons, List.length_nil, List.range_succ,
    List.range_zero, List.nil_append, List.replicate, pcnbdLoop, List.getD_cons_zero]
  simp only [if_true]
  rw [if_pos hflat]
  simp [List.set_cons_zero]

theorem c9_flatness_uniform_fallback_witness :
    pcnbd_slice_sample pgNeg pgZero dgOne logZero logZero logZero "tau"
      [0] [8] [14] [0] [1] [1] [0] [100] 0 0 0 0 0 0 halfStream oneStream 20
      = some [11] := by
  rw [c9_flatness_uniform_fallback pgNeg pgZero dgOne logZero logZero logZero
    0 8 14 0 1 1 0 100 0 0 0 0 0 0 halfStream oneStream 20 (by norm_num [pgNeg])]
  norm_num [halfStream]

theorem maLiuLoop_unknown (logR expR sqrtR : ℚ → ℚ) (what : String)
    (x tx Tcal lambda mu : List ℚ) (r alpha s beta : ℚ)
    (unif expo : Nat → ℚ) (fuel : Nat)
    (h1 : what ≠ "lambda") (h2 : what ≠ "mu") :
    ∀ (is : List Nat) (out : List ℚ) (nU nE : Nat),
    maLiuLoop logR expR sqrtR what x tx Tcal lambda mu r alpha s beta unif expo
      fuel is out nU nE = some (out, nU, nE) := by
  intro is
  induction is with
  | nil => intro out nU nE; rfl
  | cons i is ih =>
    intro out nU nE
    simp only [maLiuLoop]
    rw [if_neg h1, if_neg h2]
    exact ih out nU nE

theorem pcnbdLoop_unknown (pgLog pgP dg : ℚ → ℚ → ℚ → ℚ)
    (logR lgammaR sqrtR : ℚ → ℚ) (what : String)
    (x tx Tcal litt k lambda mu tau : List ℚ)
    (t gamma r alpha s beta : ℚ) (unif expo : Nat → ℚ) (fuel : Nat)
    (h1 : what ≠ "k") (h2 : what ≠ "lambda") (h3 : what ≠ "tau") :
    ∀ (is : List Nat) (out : List ℚ) (nU nE : Nat),
    pcnbdLoop pgLog pgP dg logR lgammaR sqrtR what x tx Tcal litt k lambda mu tau
      t gamma r alpha s beta unif expo fuel is out nU nE = some (out, nU, nE) := by
  intro is
  induction is with
  | nil => intro out nU nE; rfl
  | cons i is ih =>
    intro out nU nE
    simp only [pcnbdLoop]
    rw [if_neg h1, if_neg h2, if_neg h3]
    exact ih out nU nE

/-- C8: with a selector that is none of the recognized names, neither batch
driver performs any sampling: both return the zero-initialized output vector
unchanged, with every slot still at its initial value, for every input and
every random stream. -/
theorem c8_unknown_selector_leaves_output (logR expR sqrtR : ℚ → ℚ)
    (what : String) (x tx Tcal lambda mu : List ℚ) (r alpha s beta : ℚ)
    (unif expo : Nat → ℚ) (fuel : Nat)
    (pgLog pgP dg : ℚ → ℚ → ℚ → ℚ) (logR2 lgammaR2 sqrtR2 : ℚ → ℚ)
    (x2 tx2 Tcal2 litt2 k2 lambda2 mu2 tau2 : List ℚ)
    (t2 gamma2 r2 alpha2 s2 beta2 : ℚ) (unif2 expo2 : Nat → ℚ) (fuel2 : Nat)
    (h1 : what ≠ "lambda") (h2 : what ≠ "mu") (h3 : what ≠ "k") (h4 : what ≠ "tau") :
    slice_sample_ma_liu logR expR sqrtR what x tx Tcal lambda mu r alpha s beta
      unif expo fuel = some (List.replicate x.length 0)
    ∧ pcnbd_slice_sample pgLog pgP dg logR2 lgammaR2 sqrtR2 what
        x2 tx2 Tcal2 litt2 k2 lambda2 mu2 tau2 t2 gamma2 r2 alpha2 s2 beta2
        unif2 expo2 fuel2 = some (List.replicate x2.length 0) := by
  constructor
  · simp only [slice_sample_ma_liu]
    rw [maLiuLoop_unknown logR expR sqrtR what x tx Tcal lambda mu r alpha s beta
      unif expo fuel h1 h2]
    rfl
  · simp only [pcnbd_slice_sample]
    rw [pcnbdLoop_unknown pgLog pgP dg logR2 lgammaR2 sqrtR2 what x2 tx2 Tcal2
      litt2 k2 lambda2 mu2 tau2 t2 gamma2 r2 alpha2 s2 beta2 unif2 expo2 fuel2
      h3 h1 h4]
    rfl

theorem c8_unknown_selector_leaves_output_witness :
    slice_sample_ma_liu logZero logZero logZero "bogus" [3] [1] [2] [1] [1] 1 1 1 1
      halfStream oneStream 5 = some [0]
    ∧ pcnbd_slice_sample pgZero pgZero dgOne logZero logZero logZero "bogus"
        [3] [1] [2] [0] [1] [1] [0] [1] 0 0 0 0 0 0 halfStream oneStream 5
        = some [0] :=
  c8_unknown_selector_leaves_output logZero logZero logZero "bogus"
    [3] [1] [2] [1] [1] 1 1 1 1 halfStream oneStream 5
    pgZero pgZero dgOne logZero logZero logZero
    [3] [1] [2] [0] [1] [1] [0] [1] 0 0 0 0 0 0 halfStream oneStream 5
    (by decide) (by decide) (by decide) (by decide)
